import Mathlib

/-!
Verification development for the GraphQL type-system representation of this
repository.  The type-system implementation module (`definition.js`,
`schema.js`) is not present in the source tree; only its test suite
(`src/type/__tests__/definition-test.js`), the language index and the
`SingleFieldSubscriptions` validation rule are.  The definitions below are
therefore modelled from the specification, with the observable behaviour
pinned down by the repository's test suite wherever the two meet.
-/

namespace GraphQLSpec

/-- Modelled from the spec: the `Type` tagged union of spec §3 —
Scalar, Object, Interface, Union, Enum, InputObject, and the two wrapping
modifiers List and NonNull.  Named variants carry their name; the wrappers
are structurally defined by their inner type.  (The implementation module
`definition.js` is missing from the source tree; the shape is fixed by the
spec's data model and the constructors exercised in `definition-test.js`.) -/
inductive GraphQLType : Type where
  | scalar (name : String)
  | object (name : String)
  | interfaceType (name : String)
  | union (name : String)
  | enum (name : String)
  | inputObject (name : String)
  | list (ofType : GraphQLType)
  | nonNull (ofType : GraphQLType)
  deriving DecidableEq, Repr

/-- Modelled from the spec: the string form of a type (spec §3,
"String form: `Name`, `Name!`, `[T]`, `[T]!`, arbitrarily nestable"),
matching the `toString` behaviour pinned by `definition-test.js` lines
331–343. -/
def typeToString : GraphQLType → String
  | .scalar n => n
  | .object n => n
  | .interfaceType n => n
  | .union n => n
  | .enum n => n
  | .inputObject n => n
  | .list t => "[" ++ typeToString t ++ "]"
  | .nonNull t => typeToString t ++ "!"

def isScalarType : GraphQLType → Bool
  | .scalar _ => true
  | _ => false

def isObjectType : GraphQLType → Bool
  | .object _ => true
  | _ => false

def isInterfaceType : GraphQLType → Bool
  | .interfaceType _ => true
  | _ => false

def isUnionType : GraphQLType → Bool
  | .union _ => true
  | _ => false

def isEnumType : GraphQLType → Bool
  | .enum _ => true
  | _ => false

def isInputObjectType : GraphQLType → Bool
  | .inputObject _ => true
  | _ => false

def isListType : GraphQLType → Bool
  | .list _ => true
  | _ => false

def isNonNullType : GraphQLType → Bool
  | .nonNull _ => true
  | _ => false

/-- Modelled from the spec: `isInputType` (spec §4.1, "holds for Scalar,
Enum, InputObject, or any List/NonNull wrapping thereof"), recursing
through the wrappers as the classification predicate does. -/
def isInputType : GraphQLType → Bool
  | .scalar _ => true
  | .enum _ => true
  | .inputObject _ => true
  | .list t => isInputType t
  | .nonNull t => isInputType t
  | _ => false

/-- Modelled from the spec: `isOutputType` (spec §4.1, "holds for Scalar,
Object, Interface, Union, Enum, or wrapping thereof"). -/
def isOutputType : GraphQLType → Bool
  | .scalar _ => true
  | .object _ => true
  | .interfaceType _ => true
  | .union _ => true
  | .enum _ => true
  | .list t => isOutputType t
  | .nonNull t => isOutputType t
  | _ => false

/-- Modelled from the spec: `getNamedType`, stripping any List/NonNull
wrappers down to the innermost named type. -/
def getNamedType : GraphQLType → GraphQLType
  | .list t => getNamedType t
  | .nonNull t => getNamedType t
  | t => t

/-- A value passed where a GraphQL type is expected: either an actual
type, or one of the non-type host-language values the test suite feeds to
the `List`/`NonNull` constructors (a plain object, the host `String`
function, `undefined`, `null`). -/
inductive JSValue : Type where
  | gtype (t : GraphQLType)
  | plainObject
  | stringFunction
  | undefinedV
  | nullV
  deriving DecidableEq, Repr

/-- The host language's string coercion of such a value, as it appears
interpolated into error messages. -/
def jsValueToString : JSValue → String
  | .gtype t => typeToString t
  | .plainObject => "[object Object]"
  | .stringFunction => "function String() \x7b [native code] \x7d"
  | .undefinedV => "undefined"
  | .nullV => "null"

/-- Whether the value is a GraphQL type at all. -/
def isType : JSValue → Bool
  | .gtype _ => true
  | _ => false

/-- Modelled from the spec: the `GraphQLList` constructor.  A non-type
argument is rejected with "Expected <value> to be a GraphQL type."
(spec §4.1; `definition-test.js` lines 494–500). -/
def GraphQLList (v : JSValue) : Except String GraphQLType :=
  match v with
  | .gtype t => .ok (.list t)
  | v => .error ("Expected " ++ jsValueToString v ++ " to be a GraphQL type.")

/-- Modelled from the spec: the `GraphQLNonNull` constructor.  Its
argument must be a GraphQL *nullable* type — any type except a NonNull —
otherwise it is rejected with "Expected <value> to be a GraphQL nullable
type.", the message pinned by `definition-test.js` lines 530–536 (which
supersedes the spec's wording for the non-type case). -/
def GraphQLNonNull (v : JSValue) : Except String GraphQLType :=
  match v with
  | .gtype (.nonNull t) =>
      .error ("Expected " ++ typeToString (.nonNull t) ++
        " to be a GraphQL nullable type.")
  | .gtype t => .ok (.nonNull t)
  | v => .error ("Expected " ++ jsValueToString v ++
        " to be a GraphQL nullable type.")

/-- A type has no NonNull directly wrapping a NonNull anywhere inside it. -/
def noDoubleNonNull : GraphQLType → Bool
  | .list t => noDoubleNonNull t
  | .nonNull (.nonNull _) => false
  | .nonNull t => noDoubleNonNull t
  | _ => true

/-- Types obtainable from named types via the (checked) `GraphQLList` and
`GraphQLNonNull` constructors. -/
inductive Constructed : GraphQLType → Prop where
  | scalar (n : String) : Constructed (.scalar n)
  | object (n : String) : Constructed (.object n)
  | interfaceType (n : String) : Constructed (.interfaceType n)
  | union (n : String) : Constructed (.union n)
  | enum (n : String) : Constructed (.enum n)
  | inputObject (n : String) : Constructed (.inputObject n)
  | listOf (t u : GraphQLType) : Constructed t →
      GraphQLList (.gtype t) = .ok u → Constructed u
  | nonNullOf (t u : GraphQLType) : Constructed t →
      GraphQLNonNull (.gtype t) = .ok u → Constructed u

/-- Modelled from the spec: a type-valued member "may be provided directly
or as a zero-argument producer" (spec §4.1, §9). -/
inductive ThunkV (α : Type) : Type where
  | direct (a : α)
  | thunked (f : Unit → α)

/-- Modelled from the spec: `resolveThunk` — apply the producer, or return
the directly provided value. -/
def resolveThunk {α : Type} : ThunkV α → α
  | .direct a => a
  | .thunked f => f ()

/-- Modelled from the spec: a Union type as constructed — its name, its
member-list configuration (possibly a thunk), and the memo slot that
caches the resolved member list after the first access. -/
structure GraphQLUnionTypeV : Type where
  name : String
  typesConfig : ThunkV (List GraphQLType)
  typesCache : Option (List GraphQLType) := none

/-- Modelled from the spec: `defineTypes` — resolve the member-list thunk
and check construction-time validity: "Union members must all be Object
types — any other kind fails with `\"<UnionName> may only contain Object
types, it cannot contain: <offending>.\"`" (spec §4.1; message pinned by
`definition-test.js` lines 377–394).  The first offending member raises. -/
def defineTypes (uname : String) (config : ThunkV (List GraphQLType)) :
    Except String (List GraphQLType) :=
  let types := resolveThunk config
  match types.find? (fun t => !isObjectType t) with
  | some t => .error (uname ++ " may only contain Object types, it cannot contain: "
      ++ typeToString t ++ ".")
  | none => .ok types

/-- Modelled from the spec: `GraphQLUnionType.getTypes` — return the cached
member list when present, otherwise resolve and validate the configuration,
fill the cache, and return the list together with the updated (memoized)
union value. -/
def unionGetTypes (u : GraphQLUnionTypeV) :
    Except String (List GraphQLType × GraphQLUnionTypeV) :=
  match u.typesCache with
  | some ts => .ok (ts, u)
  | none =>
    match defineTypes u.name u.typesConfig with
    | .error e => .error e
    | .ok ts => .ok (ts, { u with typesCache := some ts })

/-- The member list `getTypes` yields, forgetting the memo state. -/
def unionGetTypesResult (u : GraphQLUnionTypeV) : Except String (List GraphQLType) :=
  (unionGetTypes u).map Prod.fst

/-- A host-language value stored in an enum value definition (the test
suite uses strings, `null` and `undefined`; presence of the `value` key is
distinguished from an explicit nullish value). -/
inductive JsVal : Type where
  | undefinedV
  | nullV
  | str (s : String)
  deriving DecidableEq, Repr

/-- Modelled from the spec: the caller-supplied configuration of one enum
value.  `value := none` means the `value` key is absent; `some .nullV` /
`some .undefinedV` are the explicit nullish values of
`definition-test.js` lines 189–216. -/
structure EnumValueConfigV : Type where
  description : Option String := none
  deprecationReason : Option String := none
  value : Option JsVal := none
  deriving DecidableEq, Repr

/-- An entry of `getValues()`: name, description, deprecation state and
the internal value. -/
structure EnumValueDefinitionV : Type where
  name : String
  description : Option String
  isDeprecated : Bool
  deprecationReason : Option String
  value : JsVal
  deriving DecidableEq, Repr

/-- Modelled from the spec: `defineEnumValues` — one definition per
configured value, in definition order; the internal value defaults to the
definition key's name when no explicit value is given, while an explicit
nullish value is kept; a value is deprecated exactly when a deprecation
reason was provided (`definition-test.js` lines 173–216). -/
def defineEnumValues (values : List (String × EnumValueConfigV)) :
    List EnumValueDefinitionV :=
  values.map (fun p =>
    { name := p.1
      description := p.2.description
      isDeprecated := p.2.deprecationReason.isSome
      deprecationReason := p.2.deprecationReason
      value := match p.2.value with
               | some v => v
               | none => .str p.1 })

/-- Modelled from the spec: an Enum type — name plus its ordered value
configuration. -/
structure GraphQLEnumTypeV : Type where
  name : String
  values : List (String × EnumValueConfigV)
  deriving DecidableEq, Repr

/-- Modelled from the spec: `GraphQLEnumType.getValues`. -/
def enumGetValues (e : GraphQLEnumTypeV) : List EnumValueDefinitionV :=
  defineEnumValues e.values

end GraphQLSpec

namespace GraphQLAst

/-- A name node of the AST (translated from the AST shape used by
`SingleFieldSubscriptions` in the source). -/
structure NameNode : Type where
  value : String
  deriving DecidableEq, Repr

/-- A selection of a selection set; its payload is irrelevant to the rule,
only identity and position matter. -/
structure SelectionNode : Type where
  label : String
  deriving DecidableEq, Repr

/-- A selection set node. -/
structure SelectionSetNode : Type where
  selections : List SelectionNode
  deriving DecidableEq, Repr

/-- The three operation kinds. -/
inductive OperationType : Type where
  | query
  | mutation
  | subscription
  deriving DecidableEq, Repr

/-- An operation definition node, as consumed by the rule. -/
structure OperationDefinitionNode : Type where
  operation : OperationType
  name : Option NameNode
  selectionSet : SelectionSetNode
  deriving DecidableEq, Repr

/-- An error reported by a validation rule: message plus the AST nodes it
is attached to. -/
structure GraphQLErrorV : Type where
  message : String
  nodes : List SelectionNode
  deriving DecidableEq, Repr

/-- Translated from `singleFieldOnlyMessage` in the source: the argument is
`node.name && node.name.value`, i.e. the name's string when a name node is
present.  The host-language conditional treats the empty string as false,
hence the empty-name case also produces the anonymous form. -/
def singleFieldOnlyMessage (name : Option String) : String :=
  (match name with
   | some n => if n = "" then "Anonymous Subscription "
               else "Subscription \"" ++ n ++ "\" "
   | none => "Anonymous Subscription ") ++
  "must select only one top level field."

/-- Translated from `SingleFieldSubscriptions` in the source: on an
operation-definition node, report an error exactly when the operation is a
subscription whose top-level selection set does not have exactly one
selection; the error carries `singleFieldOnlyMessage` and is attached to
the selections after the first (`selections.slice(1)`). -/
def singleFieldSubscriptionsCheck (node : OperationDefinitionNode) :
    List GraphQLErrorV :=
  if node.operation = .subscription then
    if node.selectionSet.selections.length ≠ 1 then
      [{ message := singleFieldOnlyMessage (node.name.map NameNode.value)
         nodes := node.selectionSet.selections.drop 1 }]
    else []
  else []

end GraphQLAst

namespace GraphQLHeap

open GraphQLSpec

/-- An argument definition of a field, as produced for the field map. -/
structure GraphQLArgumentV : Type where
  name : String
  argType : GraphQLType
  deriving DecidableEq, Repr

/-- A caller-supplied field configuration: output type, argument
configuration and optional deprecation reason. -/
structure FieldConfigV : Type where
  fieldType : GraphQLType
  args : List (String × GraphQLType) := []
  deprecationReason : Option String := none
  deriving DecidableEq, Repr

/-- A field definition as stored in a constructed type's field map. -/
structure FieldDefinitionV : Type where
  name : String
  fieldType : GraphQLType
  args : List GraphQLArgumentV
  isDeprecated : Bool
  deprecationReason : Option String
  deriving DecidableEq, Repr

/-- A host-language object: either a caller-supplied field configuration
or a field definition allocated by type construction. -/
inductive Cell : Type where
  | config (c : FieldConfigV)
  | fieldDef (f : FieldDefinitionV)
  deriving DecidableEq, Repr

/-- The host-language object store: objects live at addresses (list
positions); allocation appends, mutation overwrites in place. -/
structure Heap : Type where
  cells : List Cell
  deriving DecidableEq, Repr

def Heap.read (h : Heap) (a : Nat) : Option Cell := h.cells[a]?

def Heap.alloc (h : Heap) (c : Cell) : Heap × Nat :=
  (⟨h.cells ++ [c]⟩, h.cells.length)

def Heap.write (h : Heap) (a : Nat) (c : Cell) : Heap :=
  ⟨h.cells.set a c⟩

/-- The configuration found at an address (a junk default when the address
does not hold a configuration object). -/
def configAt (h : Heap) (a : Nat) : FieldConfigV :=
  match h.read a with
  | some (.config c) => c
  | _ => { fieldType := .scalar "String" }

/-- Modelled from the spec: the fresh field definition built from one
caller-supplied configuration entry — every component is copied into a new
object ("Defensively copied at construction", spec §3). -/
def buildFieldDef (fname : String) (c : FieldConfigV) : FieldDefinitionV :=
  { name := fname
    fieldType := c.fieldType
    args := c.args.map (fun p => { name := p.1, argType := p.2 })
    isDeprecated := c.deprecationReason.isSome
    deprecationReason := c.deprecationReason }

/-- Modelled from the spec: `defineFieldMap` — walk the caller-supplied
field map (association of field names to addresses of configuration
objects), allocate a fresh field-definition object per entry, and return
the new field map; the caller's objects are only read, never written. -/
def defineFieldMap (h : Heap) : List (String × Nat) → Heap × List (String × Nat)
  | [] => (h, [])
  | (fname, a) :: rest =>
    let r0 := h.alloc (.fieldDef (buildFieldDef fname (configAt h a)))
    let r1 := defineFieldMap r0.1 rest
    (r1.1, (fname, r0.2) :: r1.2)

/-- Dereference a field map: the deep value the caller can observe. -/
def readFields (h : Heap) (fm : List (String × Nat)) : List (String × Option Cell) :=
  fm.map (fun p => (p.1, h.read p.2))

/-- The deep field map expected for a configuration read in heap `h`. -/
def expectedFields (h : Heap) (fields : List (String × Nat)) :
    List (String × Option Cell) :=
  fields.map (fun p => (p.1, some (.fieldDef (buildFieldDef p.1 (configAt h p.2)))))

end GraphQLHeap

namespace GraphQLSchema

open GraphQLSpec

/-- A reference to a type from a field or argument position: a name,
possibly under List/NonNull wrappers. -/
inductive TypeRef : Type where
  | named (name : String)
  | list (t : TypeRef)
  | nonNull (t : TypeRef)
  deriving DecidableEq, Repr

/-- The innermost name of a reference (the named type it reaches). -/
def TypeRef.rootName : TypeRef → String
  | .named n => n
  | .list t => t.rootName
  | .nonNull t => t.rootName

/-- A field signature: output type and argument types. -/
structure FieldSig : Type where
  fieldType : TypeRef
  args : List TypeRef := []
  deriving DecidableEq, Repr

/-- The definition body of a named type, with all type-valued positions as
references by name (the schema graph may be cyclic). -/
inductive TypeDefBody : Type where
  | scalar
  | enum
  | object (fields : List (String × FieldSig)) (interfaces : List String)
  | interfaceType (fields : List (String × FieldSig))
  | union (members : List String)
  | inputObject (fields : List (String × TypeRef))
  deriving DecidableEq, Repr

/-- All named type definitions of a program, keyed by name. -/
abbrev TypeEnv : Type := List (String × TypeDefBody)

def lookupEnv (env : TypeEnv) (n : String) : Option TypeDefBody :=
  match List.find? (fun p => decide (p.1 = n)) env with
  | some p => some p.2
  | none => none

def envKeys (env : TypeEnv) : List String := List.map Prod.fst env

/-- Modelled from the spec (§4.2): the names a type definition directly
references — an Object recurses into its declared interfaces and into
every field's argument types and output type, an Interface into its
fields, a Union into its members, an InputObject into its field types;
Scalars and Enums reference nothing. -/
def directRefs : TypeDefBody → List String
  | .scalar => []
  | .enum => []
  | .object fields interfaces =>
      interfaces ++ fields.flatMap
        (fun p => p.2.args.map TypeRef.rootName ++ [p.2.fieldType.rootName])
  | .interfaceType fields =>
      fields.flatMap
        (fun p => p.2.args.map TypeRef.rootName ++ [p.2.fieldType.rootName])
  | .union members => members
  | .inputObject fields => fields.map (fun p => p.2.rootName)

lemma lookupEnv_none_not_mem {env : TypeEnv} {n : String}
    (h : lookupEnv env n = none) : n ∉ envKeys env := by
  intro hmem
  unfold lookupEnv at h
  cases hfind : List.find? (fun p => decide (p.1 = n)) env with
  | some p => rw [hfind] at h; cases h
  | none =>
    obtain ⟨p, hp, hpn⟩ := List.mem_map.mp hmem
    have := List.find?_eq_none.mp hfind p hp
    simp [hpn] at this

lemma lookupEnv_some_mem {env : TypeEnv} {n : String} {b : TypeDefBody}
    (h : lookupEnv env n = some b) : n ∈ envKeys env := by
  unfold lookupEnv at h
  cases hfind : List.find? (fun p => decide (p.1 = n)) env with
  | none => rw [hfind] at h; cases h
  | some p =>
    have hmem := List.mem_of_find?_eq_some hfind
    have hpp := List.find?_some hfind
    simp only [decide_eq_true_eq] at hpp
    exact List.mem_map.mpr ⟨p, hmem, hpp⟩

/-- The count of type names not yet visited: the termination measure of
the traversal. -/
def collectMeasure (env : TypeEnv) (visited : List String) : Nat :=
  ((envKeys env).filter (fun k => decide (k ∉ visited))).length

lemma length_filter_not_mem_cons_le (l : List String) (n : String)
    (visited : List String) :
    (l.filter (fun k => decide (k ∉ n :: visited))).length ≤
    (l.filter (fun k => decide (k ∉ visited))).length := by
  apply List.Sublist.length_le
  apply List.monotone_filter_right
  intro a ha
  simp only [decide_eq_true_eq, List.mem_cons, not_or] at ha ⊢
  exact ha.2

lemma length_filter_not_mem_cons_lt (l : List String) {n : String}
    (visited : List String) (hmem : n ∈ l) (hnv : n ∉ visited) :
    (l.filter (fun k => decide (k ∉ n :: visited))).length <
    (l.filter (fun k => decide (k ∉ visited))).length := by
  induction l with
  | nil => cases hmem
  | cons a l ih =>
    by_cases ha : a = n
    · subst ha
      rw [List.filter_cons_of_neg, List.filter_cons_of_pos]
      · exact Nat.lt_succ_of_le (length_filter_not_mem_cons_le l a visited)
      · simpa using hnv
      · simp
    · have hmem' : n ∈ l := by
        cases hmem with
        | head => exact absurd rfl ha
        | tail _ h => exact h
      by_cases hav : a ∈ visited
      · rw [List.filter_cons_of_neg, List.filter_cons_of_neg]
        · exact ih hmem'
        · simpa using hav
        · simp [hav]
      · rw [List.filter_cons_of_pos, List.filter_cons_of_pos]
        · exact Nat.succ_lt_succ (ih hmem')
        · simpa using hav
        · simp [hav, ha]

lemma filter_not_mem_cons_of_not_mem (l : List String) {n : String}
    (visited : List String) (h : n ∉ l) :
    l.filter (fun k => decide (k ∉ n :: visited)) =
    l.filter (fun k => decide (k ∉ visited)) := by
  apply List.filter_congr
  intro a ha
  have hne : a ≠ n := fun e => h (e ▸ ha)
  simp [List.mem_cons, hne]

/-- The names directly referenced by the type of the given name (none when
the name has no definition). -/
def directRefsOf (env : TypeEnv) (n : String) : List String :=
  match lookupEnv env n with
  | none => []
  | some b => directRefs b

/-- Modelled from the spec (§4.2): the type-map traversal — visit every
name on the worklist; a name not yet in the map is added and its
definition's direct references are pushed.  Deduplication is by name:
an already-visited name is skipped, however many reference paths lead to
it. -/
def collectTypes (env : TypeEnv) (visited : List String) (work : List String) :
    List String :=
  match work with
  | [] => visited
  | n :: rest =>
    if hv : n ∈ visited then collectTypes env visited rest
    else collectTypes env (n :: visited) (directRefsOf env n ++ rest)
termination_by (collectMeasure env visited, work.length)
decreasing_by
  · apply Prod.Lex.right
    simp
  · cases hl : lookupEnv env n with
    | some b =>
      apply Prod.Lex.left
      exact length_filter_not_mem_cons_lt _ _ (lookupEnv_some_mem hl) hv
    | none =>
      have hnm : n ∉ envKeys env := lookupEnv_none_not_mem hl
      have heq : collectMeasure env (n :: visited) = collectMeasure env visited := by
        unfold collectMeasure
        exact congrArg List.length (filter_not_mem_cons_of_not_mem _ _ hnm)
      have hrefs : directRefsOf env n = [] := by
        unfold directRefsOf
        rw [hl]
      rw [heq, hrefs]
      apply Prod.Lex.right
      simp

/-- The configuration of a schema: the root operation type names and the
optional explicit extra-types list (spec §3). -/
structure SchemaConfig : Type where
  query : String
  mutation : Option String := none
  subscription : Option String := none
  types : List String := []

/-- The names the traversal starts from: the roots plus the explicit
extra types. -/
def initialTypes (c : SchemaConfig) : List String :=
  [c.query] ++ c.mutation.toList ++ c.subscription.toList ++ c.types

/-- Modelled from the spec (§4.2): the schema's type map (its key set, in
visit order) — "Traverse from root types and any explicitly declared
extra types", deduplicating by name. -/
def schemaTypeMap (env : TypeEnv) (c : SchemaConfig) : List String :=
  collectTypes env [] (initialTypes c)

/-- One type definition directly references another by name. -/
def envEdge (env : TypeEnv) (a b : String) : Prop :=
  ∃ body, lookupEnv env a = some body ∧ b ∈ directRefs body

/-- A name is transitively reachable from one of the given start names. -/
def reachableFrom (env : TypeEnv) (roots : List String) (n : String) : Prop :=
  ∃ r ∈ roots, Relation.ReflTransGen (envEdge env) r n

lemma collectTypes_nil (env : TypeEnv) (visited : List String) :
    collectTypes env visited [] = visited := by
  rw [collectTypes]

lemma collectTypes_cons_mem {env : TypeEnv} {visited : List String} {n : String}
    {rest : List String} (h : n ∈ visited) :
    collectTypes env visited (n :: rest) = collectTypes env visited rest := by
  rw [collectTypes]
  simp [h]

lemma collectTypes_cons_new {env : TypeEnv} {visited : List String} {n : String}
    {rest : List String} (h : n ∉ visited) :
    collectTypes env visited (n :: rest) =
      collectTypes env (n :: visited) (directRefsOf env n ++ rest) := by
  rw [collectTypes]
  simp [h]

lemma mem_directRefsOf {env : TypeEnv} {a b : String} :
    b ∈ directRefsOf env a ↔ envEdge env a b := by
  unfold directRefsOf envEdge
  cases h : lookupEnv env a with
  | none => simp
  | some body => simp

lemma visited_subset_collectTypes (env : TypeEnv) (visited work : List String) :
    ∀ x ∈ visited, x ∈ collectTypes env visited work := by
  induction visited, work using collectTypes.induct env with
  | case1 visited => intro x hx; rw [collectTypes_nil]; exact hx
  | case2 visited n rest hv ih =>
      intro x hx; rw [collectTypes_cons_mem hv]; exact ih x hx
  | case3 visited n rest hv ih =>
      intro x hx; rw [collectTypes_cons_new hv]
      exact ih x (List.mem_cons_of_mem _ hx)

lemma work_subset_collectTypes (env : TypeEnv) (visited work : List String) :
    ∀ x ∈ work, x ∈ collectTypes env visited work := by
  induction visited, work using collectTypes.induct env with
  | case1 visited => intro x hx; cases hx
  | case2 visited n rest hv ih =>
      intro x hx
      rw [collectTypes_cons_mem hv]
      cases hx with
      | head => exact visited_subset_collectTypes env visited rest n hv
      | tail _ hx' => exact ih x hx'
  | case3 visited n rest hv ih =>
      intro x hx
      rw [collectTypes_cons_new hv]
      cases hx with
      | head =>
        exact visited_subset_collectTypes env (n :: visited) _ n
          (List.mem_cons_self _ _)
      | tail _ hx' =>
        exact ih x (List.mem_append.mpr (Or.inr hx'))

lemma collectTypes_nodup (env : TypeEnv) (visited work : List String) :
    visited.Nodup → (collectTypes env visited work).Nodup := by
  induction visited, work using collectTypes.induct env with
  | case1 visited => intro h; rw [collectTypes_nil]; exact h
  | case2 visited n rest hv ih =>
      intro h; rw [collectTypes_cons_mem hv]; exact ih h
  | case3 visited n rest hv ih =>
      intro h; rw [collectTypes_cons_new hv]
      exact ih (List.nodup_cons.mpr ⟨hv, h⟩)

lemma collectTypes_sound (env : TypeEnv) (visited work : List String) :
    ∀ x ∈ collectTypes env visited work,
      x ∈ visited ∨ ∃ r ∈ work, Relation.ReflTransGen (envEdge env) r x := by
  induction visited, work using collectTypes.induct env with
  | case1 visited =>
      intro x hx; rw [collectTypes_nil] at hx; exact Or.inl hx
  | case2 visited n rest hv ih =>
      intro x hx
      rw [collectTypes_cons_mem hv] at hx
      rcases ih x hx with h | ⟨r, hr, hpath⟩
      · exact Or.inl h
      · exact Or.inr ⟨r, List.mem_cons_of_mem _ hr, hpath⟩
  | case3 visited n rest hv ih =>
      intro x hx
      rw [collectTypes_cons_new hv] at hx
      rcases ih x hx with h | ⟨r, hr, hpath⟩
      · cases h with
        | head => exact Or.inr ⟨n, List.mem_cons_self _ _, Relation.ReflTransGen.refl⟩
        | tail _ h' => exact Or.inl h'
      · rcases List.mem_append.mp hr with hr1 | hr2
        · exact Or.inr ⟨n, List.mem_cons_self _ _,
            Relation.ReflTransGen.head (mem_directRefsOf.mp hr1) hpath⟩
        · exact Or.inr ⟨r, List.mem_cons_of_mem _ hr2, hpath⟩

lemma collectTypes_closed (env : TypeEnv) (visited work : List String) :
    (∀ v ∈ visited, ∀ b, envEdge env v b → b ∈ visited ∨ b ∈ work) →
    ∀ v ∈ collectTypes env visited work, ∀ b, envEdge env v b →
      b ∈ collectTypes env visited work := by
  induction visited, work using collectTypes.induct env with
  | case1 visited =>
      intro hinv v hv b he
      rw [collectTypes_nil] at hv ⊢
      rcases hinv v hv b he with h | h
      · exact h
      · cases h
  | case2 visited n rest hmem ih =>
      intro hinv
      rw [collectTypes_cons_mem hmem]
      apply ih
      intro v hv b he
      rcases hinv v hv b he with h | h
      · exact Or.inl h
      · cases h with
        | head => exact Or.inl hmem
        | tail _ h' => exact Or.inr h'
  | case3 visited n rest hv ih =>
      intro hinv
      rw [collectTypes_cons_new hv]
      apply ih
      intro v hvmem b he
      cases hvmem with
      | head =>
        exact Or.inr (List.mem_append.mpr (Or.inl (mem_directRefsOf.mpr he)))
      | tail _ hv' =>
        rcases hinv v hv' b he with h | h
        · exact Or.inl (List.mem_cons_of_mem _ h)
        · cases h with
          | head => exact Or.inl (List.mem_cons_self _ _)
          | tail _ h' => exact Or.inr (List.mem_append.mpr (Or.inr h'))

lemma reachable_mem_collectTypes (env : TypeEnv) (work : List String) (x : String) :
    (∃ r ∈ work, Relation.ReflTransGen (envEdge env) r x) →
    x ∈ collectTypes env [] work := by
  rintro ⟨r, hr, hpath⟩
  have hclosed := collectTypes_closed env [] work (by intro v hv; cases hv)
  have hrmem : r ∈ collectTypes env [] work :=
    work_subset_collectTypes env [] work r hr
  induction hpath with
  | refl => exact hrmem
  | tail _ he ih => exact hclosed _ ih _ he

/-- The schema of `definition-test.js` lines 273–300: an interface, an
object implementing it that is referenced nowhere else, and a query root
whose only field has the interface type. -/
def subtypeExampleEnv : TypeEnv :=
  [("Int", .scalar),
   ("SomeInterface", .interfaceType [("f", { fieldType := .named "Int" })]),
   ("SomeSubtype", .object [("f", { fieldType := .named "Int" })] ["SomeInterface"]),
   ("Query", .object [("iface", { fieldType := .named "SomeInterface" })] [])]

/-- The schema of `definition-test.js` lines 238–271: an input object
reachable only through another input object's field, itself reachable only
through a mutation field's argument. -/
def nestedInputExampleEnv : TypeEnv :=
  [("String", .scalar),
   ("NestedInputObject", .inputObject [("value", .named "String")]),
   ("SomeInputObject", .inputObject [("nested", .named "NestedInputObject")]),
   ("Article", .object [("title", { fieldType := .named "String" })] []),
   ("SomeMutation",
     .object [("mutateSomething",
       { fieldType := .named "Article", args := [.named "SomeInputObject"] })] []),
   ("Query", .object [("article", { fieldType := .named "Article" })] [])]

end GraphQLSchema

namespace GraphQLSchema

/-- An object type's constructor configuration: its interface list may be
given directly or as a thunk (`definition-test.js` lines 302–329). -/
structure ObjectTypeConfig : Type where
  name : String
  fields : List (String × FieldSig)
  interfaces : GraphQLSpec.ThunkV (List String)

/-- Modelled from the spec: constructing the object's definition resolves
the interface-list thunk. -/
def objectConfigToDef (c : ObjectTypeConfig) : TypeDefBody :=
  .object c.fields (GraphQLSpec.resolveThunk c.interfaces)

end GraphQLSchema

/-- C1: for every schema built from root types and an optional explicit
extra-types list, the schema's type map contains exactly the named types
transitively reachable from the roots plus the explicit extra types, each
exactly once keyed by name, regardless of how many reference paths lead to
a type; in particular an Object type reachable only as an interface
implementor appears in the map exactly when it is listed in the explicit
types list, and input-object types reachable only through field arguments
also appear. -/
theorem C1_typeMap_exact :
    (∀ (env : GraphQLSchema.TypeEnv) (c : GraphQLSchema.SchemaConfig),
      (GraphQLSchema.schemaTypeMap env c).Nodup ∧
      ∀ n, n ∈ GraphQLSchema.schemaTypeMap env c ↔
        GraphQLSchema.reachableFrom env (GraphQLSchema.initialTypes c) n) ∧
    "SomeSubtype" ∈ GraphQLSchema.schemaTypeMap GraphQLSchema.subtypeExampleEnv
      { query := "Query", types := ["SomeSubtype"] } ∧
    "SomeSubtype" ∉ GraphQLSchema.schemaTypeMap GraphQLSchema.subtypeExampleEnv
      { query := "Query" } ∧
    "NestedInputObject" ∈ GraphQLSchema.schemaTypeMap
      GraphQLSchema.nestedInputExampleEnv
      { query := "Query", mutation := some "SomeMutation" } := by
  refine ⟨fun env c => ⟨GraphQLSchema.collectTypes_nodup env [] _ List.nodup_nil,
    fun n => ⟨fun hn => ?_, fun hn => GraphQLSchema.reachable_mem_collectTypes env _ n hn⟩⟩,
    ?_, ?_, ?_⟩
  · rcases GraphQLSchema.collectTypes_sound env [] _ n hn with h | h
    · cases h
    · exact h
  · simp [GraphQLSchema.schemaTypeMap, GraphQLSchema.initialTypes,
      GraphQLSchema.collectTypes_nil, GraphQLSchema.collectTypes_cons_mem,
      GraphQLSchema.collectTypes_cons_new, GraphQLSchema.subtypeExampleEnv,
      GraphQLSchema.directRefsOf, GraphQLSchema.lookupEnv,
      GraphQLSchema.directRefs, GraphQLSchema.TypeRef.rootName]
  · simp [GraphQLSchema.schemaTypeMap, GraphQLSchema.initialTypes,
      GraphQLSchema.collectTypes_nil, GraphQLSchema.collectTypes_cons_mem,
      GraphQLSchema.collectTypes_cons_new, GraphQLSchema.subtypeExampleEnv,
      GraphQLSchema.directRefsOf, GraphQLSchema.lookupEnv,
      GraphQLSchema.directRefs, GraphQLSchema.TypeRef.rootName]
  · simp [GraphQLSchema.schemaTypeMap, GraphQLSchema.initialTypes,
      GraphQLSchema.collectTypes_nil, GraphQLSchema.collectTypes_cons_mem,
      GraphQLSchema.collectTypes_cons_new, GraphQLSchema.nestedInputExampleEnv,
      GraphQLSchema.directRefsOf, GraphQLSchema.lookupEnv,
      GraphQLSchema.directRefs, GraphQLSchema.TypeRef.rootName]

open GraphQLSpec in
/-- C5: for every type `t`, `isInputType t` holds iff the innermost named
type of `t` is a Scalar, Enum, or InputObject, and `isOutputType t` holds
iff that innermost named type is a Scalar, Object, Interface, Union, or
Enum; both predicates give the same answer for `t`, `List(t)` and
`NonNull(t)`. -/
theorem C5_input_output_classification (t : GraphQLType) :
    (isInputType t = (isScalarType (getNamedType t) ||
        isEnumType (getNamedType t) || isInputObjectType (getNamedType t))) ∧
    (isOutputType t = (isScalarType (getNamedType t) ||
        isObjectType (getNamedType t) || isInterfaceType (getNamedType t) ||
        isUnionType (getNamedType t) || isEnumType (getNamedType t))) ∧
    isInputType (.list t) = isInputType t ∧
    isInputType (.nonNull t) = isInputType t ∧
    isOutputType (.list t) = isOutputType t ∧
    isOutputType (.nonNull t) = isOutputType t := by
  induction t <;>
    simp_all [isInputType, isOutputType, getNamedType, isScalarType,
      isEnumType, isInputObjectType, isObjectType, isInterfaceType,
      isUnionType]

open GraphQLSpec in
/-- C6: the string form of every type follows the grammar — a named type
prints as its name, `NonNull(T)` prints as the string of `T` followed by
`"!"`, and `List(T)` prints as the string of `T` in square brackets,
arbitrarily nested; in particular `List(NonNull(Int))` prints `[Int!]`,
`NonNull(List(Int))` prints `[Int]!`, and `List(List(Int))` prints
`[[Int]]`. -/
theorem C6_toString_grammar :
    (∀ n, typeToString (.scalar n) = n) ∧
    (∀ n, typeToString (.object n) = n) ∧
    (∀ n, typeToString (.interfaceType n) = n) ∧
    (∀ n, typeToString (.union n) = n) ∧
    (∀ n, typeToString (.enum n) = n) ∧
    (∀ n, typeToString (.inputObject n) = n) ∧
    (∀ t, typeToString (.nonNull t) = typeToString t ++ "!") ∧
    (∀ t, typeToString (.list t) = "[" ++ typeToString t ++ "]") ∧
    typeToString (.list (.nonNull (.scalar "Int"))) = "[Int!]" ∧
    typeToString (.nonNull (.list (.scalar "Int"))) = "[Int]!" ∧
    typeToString (.list (.list (.scalar "Int"))) = "[[Int]]" := by
  refine ⟨fun n => rfl, fun n => rfl, fun n => rfl, fun n => rfl,
    fun n => rfl, fun n => rfl, fun t => rfl, fun t => rfl, ?_, ?_, ?_⟩ <;> decide

namespace GraphQLSpec

lemma find?_not_object_append {pre : List GraphQLType} (post : List GraphQLType)
    (x : GraphQLType) (hpre : ∀ t ∈ pre, isObjectType t = true)
    (hx : isObjectType x = false) :
    List.find? (fun t => !isObjectType t) (pre ++ x :: post) = some x := by
  induction pre with
  | nil => simp [List.find?, hx]
  | cons a l ih =>
    have ha : isObjectType a = true := hpre a (List.mem_cons_self _ _)
    rw [List.cons_append, List.find?_cons_of_neg]
    · exact ih (fun t ht => hpre t (List.mem_cons_of_mem _ ht))
    · simp [ha]

end GraphQLSpec

open GraphQLSpec in
/-- C2: for every union constructed with name `U` and a member list whose
first non-Object member is `X` (all members before it being Object types),
asking the union for its member types fails with exactly the message
`"U may only contain Object types, it cannot contain: X."`, `X` rendered
in its string form. -/
theorem C2_union_member_validation (uname : String)
    (pre post : List GraphQLType) (x : GraphQLType)
    (hpre : ∀ t ∈ pre, isObjectType t = true) (hx : isObjectType x = false) :
    unionGetTypes { name := uname, typesConfig := .direct (pre ++ x :: post) } =
      .error (uname ++ " may only contain Object types, it cannot contain: " ++
        typeToString x ++ ".") := by
  show unionGetTypes ⟨uname, .direct (pre ++ x :: post), none⟩ = _
  unfold unionGetTypes defineTypes resolveThunk
  simp only [find?_not_object_append post x hpre hx]

open GraphQLSpec in
/-- C2 witness: the validation fires on a concrete union with a
non-Object member, with the exact message of the test suite. -/
theorem C2_witness :
    unionGetTypes ⟨"BadUnion", .direct [.enum "Enum"], none⟩ =
      .error "BadUnion may only contain Object types, it cannot contain: Enum." := by
  have h := C2_union_member_validation "BadUnion" [] []
    (GraphQLType.enum "Enum") (by intro t ht; cases ht) rfl
  exact h.trans (congrArg Except.error (by decide))

open GraphQLSpec in
/-- C3 counterexample: the claim fails on the code for `NonNull`. At the
concrete non-type value `\x7b\x7d` (a plain object), `GraphQLNonNull`
rejects with "Expected [object Object] to be a GraphQL *nullable* type.",
not with "Expected [object Object] to be a GraphQL type." as the claim
states (see `definition-test.js` lines 530–536). -/
theorem C3_counterexample :
    GraphQLNonNull .plainObject =
      .error "Expected [object Object] to be a GraphQL nullable type." ∧
    GraphQLNonNull .plainObject ≠
      .error "Expected [object Object] to be a GraphQL type." := by
  constructor
  · exact (congrArg Except.error (by decide))
  · intro h
    have := (congrArg Except.error (by decide :
      ("Expected " ++ jsValueToString .plainObject ++
        " to be a GraphQL nullable type.") =
      "Expected [object Object] to be a GraphQL nullable type.")).symm.trans h
    simp at this

open GraphQLSpec in
/-- C3 (amended): for every value `v` that is not a GraphQL type,
`GraphQLList v` fails with exactly "Expected <v> to be a GraphQL type.",
and `GraphQLNonNull v` fails with exactly "Expected <v> to be a GraphQL
nullable type." (`v` rendered in its string form). -/
theorem C3_nontype_rejection (v : JSValue) (hv : isType v = false) :
    GraphQLList v =
      .error ("Expected " ++ jsValueToString v ++ " to be a GraphQL type.") ∧
    GraphQLNonNull v =
      .error ("Expected " ++ jsValueToString v ++
        " to be a GraphQL nullable type.") := by
  cases v with
  | gtype t => simp [isType] at hv
  | plainObject => exact ⟨rfl, rfl⟩
  | stringFunction => exact ⟨rfl, rfl⟩
  | undefinedV => exact ⟨rfl, rfl⟩
  | nullV => exact ⟨rfl, rfl⟩

/-- C3 witness: the amended rejection messages at the concrete value
`undefined`. -/
theorem C3_witness :
    GraphQLSpec.GraphQLList .undefinedV =
      .error "Expected undefined to be a GraphQL type." ∧
    GraphQLSpec.GraphQLNonNull .undefinedV =
      .error "Expected undefined to be a GraphQL nullable type." := by
  have h := C3_nontype_rejection .undefinedV rfl
  exact ⟨h.1.trans (congrArg Except.error (by decide)),
    h.2.trans (congrArg Except.error (by decide))⟩

open GraphQLSpec in
/-- C4: `NonNull(NonNull(T))` is rejected with a descriptive error naming
the violating value, while `NonNull` applied to any nullable type
succeeds; hence no constructed type ever has a NonNull directly wrapping a
NonNull. -/
theorem C4_nonNull_wrapping :
    (∀ t : GraphQLType, GraphQLNonNull (.gtype (.nonNull t)) =
      .error ("Expected " ++ typeToString (.nonNull t) ++
        " to be a GraphQL nullable type.")) ∧
    (∀ t : GraphQLType, isNonNullType t = false →
      GraphQLNonNull (.gtype t) = .ok (.nonNull t)) ∧
    (∀ t : GraphQLType, Constructed t → noDoubleNonNull t = true) := by
  refine ⟨fun t => rfl, fun t ht => ?_, fun t hc => ?_⟩
  · cases t with
    | nonNull s => simp [isNonNullType] at ht
    | scalar n => rfl
    | object n => rfl
    | interfaceType n => rfl
    | union n => rfl
    | enum n => rfl
    | inputObject n => rfl
    | list s => rfl
  · induction hc with
    | scalar n => rfl
    | object n => rfl
    | interfaceType n => rfl
    | union n => rfl
    | enum n => rfl
    | inputObject n => rfl
    | listOf s u _ hok ih =>
      cases hok
      simpa [noDoubleNonNull] using ih
    | nonNullOf s u _ hok ih =>
      cases s with
      | nonNull s' => simp [GraphQLNonNull] at hok
      | scalar n => cases hok; rfl
      | object n => cases hok; rfl
      | interfaceType n => cases hok; rfl
      | union n => cases hok; rfl
      | enum n => cases hok; rfl
      | inputObject n => cases hok; rfl
      | list s' =>
        cases hok
        simpa [noDoubleNonNull] using ih

/-- C4 witness: `NonNull` succeeds on a concrete nullable type (a List of
NonNull), and a concretely constructed type has no double NonNull. -/
theorem C4_witness :
    GraphQLSpec.GraphQLNonNull
        (.gtype (.list (.nonNull (.scalar "String")))) =
      .ok (.nonNull (.list (.nonNull (.scalar "String")))) ∧
    GraphQLSpec.noDoubleNonNull (.nonNull (.list (.scalar "Int"))) = true :=
  ⟨C4_nonNull_wrapping.2.1 _ rfl,
   C4_nonNull_wrapping.2.2 _
     (.nonNullOf _ _ (.listOf _ _ (.scalar "Int") rfl) rfl)⟩

open GraphQLSpec in
/-- C7: providing a type-valued member as a zero-argument thunk is
observably equivalent to providing it directly — a union whose member list
is given as a thunk yields the same `getTypes()` result as one given the
direct list, and an object whose interfaces are given as a thunk produces
the same schema type map as one with the direct list; the thunk is
resolved on first access, its result cached, and subsequent accesses
return the cached value unchanged. -/
theorem C7_thunk_equivalence :
    (∀ (uname : String) (f : Unit → List GraphQLType),
      unionGetTypesResult ⟨uname, .thunked f, none⟩ =
      unionGetTypesResult ⟨uname, .direct (f ()), none⟩) ∧
    (∀ (u : GraphQLUnionTypeV) (ts : List GraphQLType) (u' : GraphQLUnionTypeV),
      unionGetTypes u = .ok (ts, u') →
      u'.typesCache = some ts ∧ unionGetTypes u' = .ok (ts, u')) ∧
    (∀ (nm : String) (fields : List (String × GraphQLSchema.FieldSig))
      (f : Unit → List String) (env : GraphQLSchema.TypeEnv)
      (c : GraphQLSchema.SchemaConfig),
      GraphQLSchema.schemaTypeMap
        ((nm, GraphQLSchema.objectConfigToDef ⟨nm, fields, .thunked f⟩) :: env) c =
      GraphQLSchema.schemaTypeMap
        ((nm, GraphQLSchema.objectConfigToDef ⟨nm, fields, .direct (f ())⟩) :: env) c) := by
  refine ⟨?_, ?_, fun nm fields f env c => rfl⟩
  · intro uname f
    have hdt : defineTypes uname (ThunkV.thunked f) =
        defineTypes uname (ThunkV.direct (f ())) := rfl
    unfold unionGetTypesResult unionGetTypes
    rw [hdt]
    cases hd : defineTypes uname (ThunkV.direct (f ())) with
    | error e => simp [hd]
    | ok l => simp [hd, Except.map]
  intro u ts u' h
  unfold unionGetTypes at h ⊢
  cases hc : u.typesCache with
  | some cts =>
    rw [hc] at h
    injection h with h'
    injection h' with h1 h2
    subst h1
    subst h2
    exact ⟨hc, by rw [hc]⟩
  | none =>
    rw [hc] at h
    cases hd : defineTypes u.name u.typesConfig with
    | error e => rw [hd] at h; cases h
    | ok l =>
      rw [hd] at h
      injection h with h'
      injection h' with h1 h2
      subst h1
      subst h2
      exact ⟨rfl, rfl⟩

open GraphQLSpec in
/-- C7 witness: a concrete union given a thunk yields the member list the
direct form yields, the cache is filled on first access, and the second
access returns the cached value. -/
theorem C7_witness :
    unionGetTypesResult ⟨"ThunkUnion", .thunked (fun _ => [.object "Object"]), none⟩ =
      unionGetTypesResult ⟨"ThunkUnion", .direct [.object "Object"], none⟩ ∧
    unionGetTypes ⟨"ThunkUnion", .thunked (fun _ => [.object "Object"]),
        some [.object "Object"]⟩ =
      .ok ([.object "Object"],
        ⟨"ThunkUnion", .thunked (fun _ => [.object "Object"]),
          some [.object "Object"]⟩) := by
  constructor
  · exact C7_thunk_equivalence.1 "ThunkUnion" (fun _ => [.object "Object"])
  · exact (C7_thunk_equivalence.2.1
      ⟨"ThunkUnion", .thunked (fun _ => [.object "Object"]), none⟩
      [.object "Object"]
      ⟨"ThunkUnion", .thunked (fun _ => [.object "Object"]),
        some [.object "Object"]⟩ rfl).2

open GraphQLAst in
/-- C9: the SingleFieldSubscriptions rule reports an error for an
operation-definition node iff the node's operation is a subscription whose
top-level selection set does not contain exactly one selection; the
message is `Subscription "<name>" must select only one top level field.`
when the operation is named (names are nonempty by the grammar) and
`Anonymous Subscription must select only one top level field.` when it is
anonymous, and the error is attached to the selections after the first. -/
theorem C9_single_field_subscriptions (node : OperationDefinitionNode)
    (hname : ∀ nn, node.name = some nn → nn.value ≠ "") :
    (singleFieldSubscriptionsCheck node ≠ [] ↔
      node.operation = .subscription ∧
        node.selectionSet.selections.length ≠ 1) ∧
    (node.operation = .subscription →
      node.selectionSet.selections.length ≠ 1 →
      singleFieldSubscriptionsCheck node =
        [⟨(match node.name with
           | some nn => "Subscription \"" ++ nn.value ++
               "\" must select only one top level field."
           | none => "Anonymous Subscription must select only one top level field."),
          node.selectionSet.selections.drop 1⟩]) := by
  constructor
  · constructor
    · intro hne
      unfold singleFieldSubscriptionsCheck at hne
      by_cases hop : node.operation = .subscription
      · by_cases hlen : node.selectionSet.selections.length = 1
        · simp [hop, hlen] at hne
        · exact ⟨hop, hlen⟩
      · simp [hop] at hne
    · rintro ⟨hop, hlen⟩
      unfold singleFieldSubscriptionsCheck
      simp [hop, hlen]
  · intro hop hlen
    unfold singleFieldSubscriptionsCheck
    simp only [hop, hlen, if_true, ne_eq, not_false_iff, ite_true]
    cases hn : node.name with
    | none => simp [singleFieldOnlyMessage]
    | some nn =>
      have hne := hname nn hn
      simp [singleFieldOnlyMessage, hne, String.append_assoc]

/-- C9 witness: an anonymous subscription with two top-level selections
reports the anonymous-form error attached to the second selection. -/
theorem C9_witness :
    GraphQLAst.singleFieldSubscriptionsCheck
      ⟨.subscription, none, ⟨[⟨"a"⟩, ⟨"b"⟩]⟩⟩ =
      [⟨"Anonymous Subscription must select only one top level field.",
        [⟨"b"⟩]⟩] := by
  have h := (C9_single_field_subscriptions
    ⟨.subscription, none, ⟨[⟨"a"⟩, ⟨"b"⟩]⟩⟩
    (by intro nn hnn; cases hnn)).2 rfl (by decide)
  exact h.trans (by decide)

open GraphQLSpec in
/-- C10: for every enum type, `getValues()` returns one entry per defined
value in definition order, where each entry's name is the definition key,
its value defaults to the key's name when no explicit value is given while
an explicit nullish value is kept as given, and `isDeprecated` is true iff
a deprecation reason was provided for that value. -/
theorem C10_enum_values (e : GraphQLEnumTypeV) :
    ((enumGetValues e).map EnumValueDefinitionV.name = e.values.map Prod.fst) ∧
    (∀ (i : Nat) (p : String × EnumValueConfigV), e.values[i]? = some p →
      ∃ d, (enumGetValues e)[i]? = some d ∧
        d.name = p.1 ∧
        d.description = p.2.description ∧
        d.value = p.2.value.getD (.str p.1) ∧
        (d.isDeprecated = true ↔ p.2.deprecationReason ≠ none) ∧
        d.deprecationReason = p.2.deprecationReason) := by
  constructor
  · rw [enumGetValues, defineEnumValues, List.map_map]
    rfl
  · intro i p hp
    have hval : (enumGetValues e)[i]? = some
        { name := p.1
          description := p.2.description
          isDeprecated := p.2.deprecationReason.isSome
          deprecationReason := p.2.deprecationReason
          value := match p.2.value with
                   | some v => v
                   | none => .str p.1 } := by
      rw [enumGetValues, defineEnumValues, List.getElem?_map, hp]
      rfl
    refine ⟨_, hval, rfl, rfl, ?_, ?_, rfl⟩
    · cases p.2.value <;> rfl
    · simp [Option.isSome_iff_ne_none]

open GraphQLSpec in
/-- C10 witness: on a concrete enum with a deprecated value whose `value`
key is absent, `getValues()` produces the entry with the key as value and
`isDeprecated` set. -/
theorem C10_witness :
    (enumGetValues ⟨"E", [("NULL", ⟨none, none, some .nullV⟩),
        ("foo", ⟨none, some "Just because", none⟩)]⟩)[1]? =
      some ⟨"foo", none, true, some "Just because", .str "foo"⟩ := by
  obtain ⟨d, hd, h1, h2, h3, h4, h5⟩ :=
    (C10_enum_values ⟨"E", [("NULL", ⟨none, none, some .nullV⟩),
      ("foo", ⟨none, some "Just because", none⟩)]⟩).2 1
      ("foo", ⟨none, some "Just because", none⟩) (by decide)
  have hdval : d = ⟨"foo", none, true, some "Just because", .str "foo"⟩ := by
    cases d
    have h4' := h4.mpr (by simp)
    simp_all
  rw [hdval] at hd
  exact hd

namespace GraphQLHeap

lemma Heap.length_alloc (h : Heap) (c : Cell) :
    (h.alloc c).1.cells.length = h.cells.length + 1 := by
  simp [Heap.alloc]

lemma Heap.read_alloc_lt {h : Heap} {c : Cell} {a : Nat}
    (ha : a < h.cells.length) : (h.alloc c).1.read a = h.read a := by
  unfold Heap.alloc Heap.read
  simp [List.getElem?_append, ha]

lemma Heap.read_alloc_self (h : Heap) (c : Cell) :
    (h.alloc c).1.read h.cells.length = some c := by
  unfold Heap.alloc Heap.read
  simp

lemma Heap.read_write_ne {h : Heap} {a b : Nat} {c : Cell} (hab : b ≠ a) :
    (h.write a c).read b = h.read b := by
  unfold Heap.write Heap.read
  simp [List.getElem?_set_ne (fun e => hab e.symm)]

lemma configAt_congr {h h' : Heap} {a : Nat} (hr : h'.read a = h.read a) :
    configAt h' a = configAt h a := by
  unfold configAt
  rw [hr]

lemma readFields_congr {h h' : Heap} {fm : List (String × Nat)}
    (hr : ∀ p ∈ fm, h'.read p.2 = h.read p.2) :
    readFields h' fm = readFields h fm :=
  List.map_congr_left (fun p hp => by rw [hr p hp])

lemma expectedFields_congr {h h' : Heap} {fields : List (String × Nat)}
    (hr : ∀ p ∈ fields, h'.read p.2 = h.read p.2) :
    expectedFields h' fields = expectedFields h fields :=
  List.map_congr_left (fun p hp => by
    unfold configAt
    rw [hr p hp])

lemma defineFieldMap_frame (fields : List (String × Nat)) (h : Heap) :
    h.cells.length ≤ (defineFieldMap h fields).1.cells.length ∧
    ∀ a, a < h.cells.length → (defineFieldMap h fields).1.read a = h.read a := by
  induction fields generalizing h with
  | nil => exact ⟨Nat.le_refl _, fun a _ => rfl⟩
  | cons q rest ih =>
    obtain ⟨fname, addr⟩ := q
    obtain ⟨hlen, hread⟩ :=
      ih (h.alloc (.fieldDef (buildFieldDef fname (configAt h addr)))).1
    constructor
    · calc h.cells.length
          ≤ h.cells.length + 1 := Nat.le_succ _
        _ = (h.alloc (.fieldDef (buildFieldDef fname (configAt h addr)))).1.cells.length :=
            (Heap.length_alloc _ _).symm
        _ ≤ _ := hlen
    · intro a ha
      have ha1 : a < (h.alloc
          (.fieldDef (buildFieldDef fname (configAt h addr)))).1.cells.length := by
        rw [Heap.length_alloc]
        exact Nat.lt_succ_of_lt ha
      show (defineFieldMap
        (h.alloc (.fieldDef (buildFieldDef fname (configAt h addr)))).1 rest).1.read a
          = h.read a
      rw [hread a ha1]
      exact Heap.read_alloc_lt ha

lemma defineFieldMap_addrs (fields : List (String × Nat)) (h : Heap) :
    ∀ p ∈ (defineFieldMap h fields).2,
      h.cells.length ≤ p.2 ∧ p.2 < (defineFieldMap h fields).1.cells.length := by
  induction fields generalizing h with
  | nil => intro p hp; cases hp
  | cons q rest ih =>
    obtain ⟨fname, addr⟩ := q
    intro p hp
    have hlen1 := (defineFieldMap_frame rest
      (h.alloc (.fieldDef (buildFieldDef fname (configAt h addr)))).1).1
    rw [Heap.length_alloc] at hlen1
    rcases List.mem_cons.mp hp with rfl | hp'
    · exact ⟨Nat.le_refl _, Nat.lt_of_succ_le hlen1⟩
    · obtain ⟨h1, h2⟩ := ih _ p hp'
      rw [Heap.length_alloc] at h1
      exact ⟨Nat.le_of_succ_le h1, h2⟩

lemma defineFieldMap_content (fields : List (String × Nat)) (h : Heap)
    (hvalid : ∀ p ∈ fields, p.2 < h.cells.length) :
    readFields (defineFieldMap h fields).1 (defineFieldMap h fields).2 =
      expectedFields h fields := by
  induction fields generalizing h with
  | nil => rfl
  | cons q rest ih =>
    obtain ⟨fname, addr⟩ := q
    have haddr : addr < h.cells.length := hvalid _ (List.mem_cons_self _ _)
    have hvalid1 : ∀ p ∈ rest,
        p.2 < (h.alloc
          (.fieldDef (buildFieldDef fname (configAt h addr)))).1.cells.length := by
      intro p hp
      rw [Heap.length_alloc]
      exact Nat.lt_succ_of_lt (hvalid p (List.mem_cons_of_mem _ hp))
    have hframe := defineFieldMap_frame rest
      (h.alloc (.fieldDef (buildFieldDef fname (configAt h addr)))).1
    show ((fname, (defineFieldMap
        (h.alloc (.fieldDef (buildFieldDef fname (configAt h addr)))).1 rest).1.read
          h.cells.length) ::
      readFields (defineFieldMap
        (h.alloc (.fieldDef (buildFieldDef fname (configAt h addr)))).1 rest).1
        (defineFieldMap
          (h.alloc (.fieldDef (buildFieldDef fname (configAt h addr)))).1 rest).2) =
      (fname, some (.fieldDef (buildFieldDef fname (configAt h addr)))) ::
        expectedFields h rest
    congr 1
    · have : (defineFieldMap
          (h.alloc (.fieldDef (buildFieldDef fname (configAt h addr)))).1 rest).1.read
            h.cells.length =
          (h.alloc (.fieldDef (buildFieldDef fname (configAt h addr)))).1.read
            h.cells.length := by
        apply hframe.2
        rw [Heap.length_alloc]
        exact Nat.lt_succ_self _
      rw [this, Heap.read_alloc_self]
    · rw [ih _ hvalid1]
      apply expectedFields_congr
      intro p hp
      exact Heap.read_alloc_lt (hvalid p (List.mem_cons_of_mem _ hp))

end GraphQLHeap

open GraphQLHeap in
/-- C8: constructing types from a caller-supplied field-definitions map
never mutates that map — every object the caller held before construction
reads back deeply unchanged after two types are built from the same map —
and the two types' field maps are deeply equal; moreover later mutation of
the caller-supplied definition objects never affects an already
constructed type's field map. -/
theorem C8_fieldmap_defensive_copy (h : Heap) (fields : List (String × Nat))
    (hvalid : ∀ p ∈ fields, p.2 < h.cells.length) :
    (∀ a, a < h.cells.length →
      (defineFieldMap (defineFieldMap h fields).1 fields).1.read a = h.read a) ∧
    readFields (defineFieldMap (defineFieldMap h fields).1 fields).1
        (defineFieldMap h fields).2 =
      readFields (defineFieldMap (defineFieldMap h fields).1 fields).1
        (defineFieldMap (defineFieldMap h fields).1 fields).2 ∧
    (∀ a c, a < h.cells.length →
      readFields ((defineFieldMap (defineFieldMap h fields).1 fields).1.write a c)
          (defineFieldMap h fields).2 =
        readFields (defineFieldMap (defineFieldMap h fields).1 fields).1
          (defineFieldMap h fields).2) := by
  obtain ⟨hlen1, hread1⟩ := defineFieldMap_frame fields h
  obtain ⟨hlen2, hread2⟩ := defineFieldMap_frame fields (defineFieldMap h fields).1
  have hvalid1 : ∀ p ∈ fields, p.2 < (defineFieldMap h fields).1.cells.length :=
    fun p hp => Nat.lt_of_lt_of_le (hvalid p hp) hlen1
  have haddrs1 := defineFieldMap_addrs fields h
  refine ⟨?_, ?_, ?_⟩
  · intro a ha
    rw [hread2 a (Nat.lt_of_lt_of_le ha hlen1)]
    exact hread1 a ha
  · have e1 : readFields (defineFieldMap (defineFieldMap h fields).1 fields).1
        (defineFieldMap h fields).2 =
        readFields (defineFieldMap h fields).1 (defineFieldMap h fields).2 := by
      apply readFields_congr
      intro p hp
      exact hread2 p.2 (haddrs1 p hp).2
    have e2 : readFields (defineFieldMap h fields).1 (defineFieldMap h fields).2 =
        expectedFields h fields := defineFieldMap_content fields h hvalid
    have e3 : readFields (defineFieldMap (defineFieldMap h fields).1 fields).1
        (defineFieldMap (defineFieldMap h fields).1 fields).2 =
        expectedFields (defineFieldMap h fields).1 fields :=
      defineFieldMap_content fields (defineFieldMap h fields).1 hvalid1
    have e4 : expectedFields (defineFieldMap h fields).1 fields =
        expectedFields h fields := by
      apply expectedFields_congr
      intro p hp
      exact hread1 p.2 (hvalid p hp)
    rw [e1, e2, e3, e4]
  · intro a c ha
    apply readFields_congr
    intro p hp
    apply Heap.read_write_ne
    intro he
    have := (haddrs1 p hp).1
    rw [he] at this
    exact Nat.not_lt.mpr this ha

open GraphQLHeap in
/-- C8 witness: the defensive-copy properties hold on a concrete heap with
one caller-supplied field configuration. -/
theorem C8_witness :
    (defineFieldMap (defineFieldMap ⟨[.config ⟨.scalar "String", [], none⟩]⟩
        [("field1", 0)]).1 [("field1", 0)]).1.read 0 =
      Heap.read ⟨[.config ⟨.scalar "String", [], none⟩]⟩ 0 ∧
    readFields (defineFieldMap (defineFieldMap ⟨[.config ⟨.scalar "String", [], none⟩]⟩
        [("field1", 0)]).1 [("field1", 0)]).1
      (defineFieldMap ⟨[.config ⟨.scalar "String", [], none⟩]⟩ [("field1", 0)]).2 =
    readFields (defineFieldMap (defineFieldMap ⟨[.config ⟨.scalar "String", [], none⟩]⟩
        [("field1", 0)]).1 [("field1", 0)]).1
      (defineFieldMap (defineFieldMap ⟨[.config ⟨.scalar "String", [], none⟩]⟩
        [("field1", 0)]).1 [("field1", 0)]).2 := by
  have h := C8_fieldmap_defensive_copy ⟨[.config ⟨.scalar "String", [], none⟩]⟩
    [("field1", 0)] (by intro p hp; simp at hp; simp [hp])
  exact ⟨h.1 0 (by decide), h.2.1⟩
